import Mathlib

/-!
Verification of the multi-view feature-fusion driver in
`scripts/feature_fusion/scannet_openseg.py`.

The development shallowly embeds the fusion loop of `process_one_scene`
(lines 79-116 of the source), the already-exported check (lines 55-64)
and the data-path selection of `main` (lines 181-193).

Modelling conventions:
* A point cloud has `N` points, features have dimension `D`; point
  indices are `Fin N`, feature coordinates `Fin D`.
* One camera view reaches the fusion loop as the visibility mask
  (`mapping[:, 3]`), the projected pixel coordinates
  (`mapping[:, 1]`, `mapping[:, 2]`) and the per-pixel feature field
  `feat_2d`.  `PointCloudToImageMapper.compute_mapping` lives outside
  this file's sources; per the spec its mask output is a binary
  (boolean/integer) vector, which we generalise to arbitrary natural
  numbers so that the source's nonzero tests (`mask != 0`,
  `mapping[:, 3].sum() == 0`) are embedded verbatim.
* Float tensors are embedded as rationals; the literal `1e-5` becomes
  the rational `1 / 100000`.
* The feature field is a total function on integer pixel coordinates,
  matching the source's gather `feat_2d[:, mapping[:, 1], mapping[:, 2]]`
  which reads a pixel for every point, masked or not.
-/

/-- One camera view as consumed by the fusion loop of
`process_one_scene`: the visibility mask `mapping[:, 3]`, the projected
pixel coordinates `(mapping[:, 1], mapping[:, 2])` per point, and the
dense per-pixel feature field `feat_2d` for this view's image. -/
structure View (N D : ℕ) where
  mask : Fin N → ℕ
  pix : Fin N → ℕ × ℕ
  feat : ℕ × ℕ → Fin D → ℚ

/-- Mutable per-scene state of the fusion loop: the visit counter
(`counter`, an `(N, 1)` float tensor in the source), the running
feature sums (`sum_features`), the visibility ledger `vis_id` kept as
the list of its per-view columns in view order, and the number of calls
made to `extract_openseg_img_feature` so far. -/
structure FusionState (N D : ℕ) where
  counter : Fin N → ℚ
  sum_features : Fin N → Fin D → ℚ
  visCols : List (Fin N → ℕ)
  extracted : ℕ

/-- `mapping[:, 3].sum()`: total of the visibility mask of one view. -/
def maskSum {N D : ℕ} (v : View N D) : ℕ := ∑ p, v.mask p

/-- The body of the view loop once the view survives the empty-mask
check: record the mask as this view's `vis_id` column, extract the
feature field (counted by `extracted`), gather it at each point's
pixel, and update `counter` / `sum_features` at the masked points
(source lines 100-109). -/
def addView {N D : ℕ} (st : FusionState N D) (v : View N D) : FusionState N D :=
  { counter := fun p => if v.mask p ≠ 0 then st.counter p + 1 else st.counter p
    sum_features := fun p d =>
      if v.mask p ≠ 0 then st.sum_features p d + v.feat (v.pix p) d else st.sum_features p d
    visCols := st.visCols ++ [v.mask]
    extracted := st.extracted + 1 }

/-- One iteration of the view loop of `process_one_scene` (source lines
84-109): if `mapping[:, 3].sum() == 0` the view is skipped before the
`vis_id` write and before feature extraction, leaving its `vis_id`
column at its initial zeros; otherwise the view is accumulated. -/
def stepView {N D : ℕ} (st : FusionState N D) (v : View N D) : FusionState N D :=
  if maskSum v = 0 then { st with visCols := st.visCols ++ [fun _ => 0] }
  else addView st v

/-- The state before the view loop: zero counters and sums, an all-zero
`vis_id`, no extractions yet (source lines 79-83). -/
def initState (N D : ℕ) : FusionState N D :=
  { counter := fun _ => 0
    sum_features := fun _ _ => 0
    visCols := []
    extracted := 0 }

/-- The view loop of `process_one_scene` over a scene's views in order,
with the empty-mask skip of source line 95. -/
def runViews {N D : ℕ} (views : List (View N D)) : FusionState N D :=
  views.foldl stepView (initState N D)

/-- The same loop with the empty-mask skip removed: every view is
accumulated unconditionally.  Reference semantics for the skip
equivalence. -/
def runViewsPlain {N D : ℕ} (views : List (View N D)) : FusionState N D :=
  views.foldl addView (initState N D)

/-- The `1e-5` epsilon substituted for zero counters (source line 111),
embedded exactly as the rational it denotes. -/
def epsVal : ℚ := 1 / 100000

/-- The counter tensor after `counter[counter == 0] = 1e-5` (source
line 111). -/
def counterFinal {N : ℕ} (c : Fin N → ℚ) : Fin N → ℚ :=
  fun p => if c p = 0 then epsVal else c p

/-- The in-place effect of finalization on the accumulator: line 111
overwrites the zero entries of `counter`; `sum_features` and `vis_id`
are read but not written. -/
def finalizeState {N D : ℕ} (st : FusionState N D) : FusionState N D :=
  { st with counter := counterFinal st.counter }

/-- `feat_bank = sum_features / counter` computed from the current
accumulator contents, with the epsilon substitution applied to the
counter first (source lines 111-112). -/
def featBankOf {N D : ℕ} (st : FusionState N D) : Fin N → Fin D → ℚ :=
  fun p d => st.sum_features p d / counterFinal st.counter p

/-- `point_ids = torch.unique(vis_id.nonzero()[:, 0])` (source line
113): the set of point indices whose `vis_id` row has a nonzero entry
in some view column. -/
def pointIdsOf {N D : ℕ} (st : FusionState N D) : Finset (Fin N) :=
  Finset.univ.filter fun p => st.visCols.any fun col => col p != 0

/-- Number of views of the scene in which point `p` is visible
(mask nonzero). -/
def viewCount {N D : ℕ} (views : List (View N D)) (p : Fin N) : ℕ :=
  (views.filter fun v => v.mask p != 0).length

/-- Sum over the views in which `p` is visible of the feature gathered
at `p`'s projected pixel in that view. -/
def viewSum {N D : ℕ} (views : List (View N D)) (p : Fin N) (d : Fin D) : ℚ :=
  (views.map fun v => if v.mask p ≠ 0 then v.feat (v.pix p) d else 0).sum

/-- The `vis_id` column the loop leaves behind for view `v`: the
initial zeros when the view is skipped, the mask otherwise. -/
def recordedCol {N D : ℕ} (v : View N D) : Fin N → ℕ :=
  if maskSum v = 0 then fun _ => 0 else v.mask

/-- `n_finished` (source lines 55-62): how many of the scene's expected
output shards `<scene_id>_<n>.pt`, `n` ranging over
`range(num_rand_file_per_scene)`, already exist in the output
directory.  `file_exists n` abstracts the `exists(join(out_dir, ...))`
probe for shard `n`. -/
def n_finished (num_rand_file_per_scene : ℕ) (file_exists : ℕ → Bool) : ℕ :=
  ((List.range num_rand_file_per_scene).filter fun n => file_exists n).length

/-- The early-return gate of `process_one_scene` (source lines 63-64):
the scene is skipped (`return 1` before any view processing, fusion or
write) exactly when `n_finished == n_interval`. -/
def sceneAlreadyDone (num_rand_file_per_scene : ℕ) (file_exists : ℕ → Bool) : Bool :=
  n_finished num_rand_file_per_scene file_exists == num_rand_file_per_scene

/-- `data_paths` of `main` (source lines 181-182): the `glob` over the
split directory is commented out; the list is the hard-coded singleton
`join(data_root, split, "scene0479_00_vh_clean_2.pth")` with
`data_root = join(data_dir, "scannet_3d")`. -/
def data_paths (data_dir split : String) : List String :=
  [data_dir ++ "/scannet_3d/" ++ split ++ "/scene0479_00_vh_clean_2.pth"]

/-- The `--process_id_range` check of `main` (source lines 185-191): a
scene index `i` is handed to `process_one_scene` unless a range
`[lo, hi]` was given and `i < lo or i > hi`. -/
def idRangeKeeps (id_range : Option (ℤ × ℤ)) (i : ℕ) : Bool :=
  match id_range with
  | none => true
  | some r => !((i : ℤ) < r.1 || (i : ℤ) > r.2)

/-- The scene indices `main` actually processes: `trange(total_num)`
filtered by the id-range check (source lines 188-193). -/
def processedIndices (total_num : ℕ) (id_range : Option (ℤ × ℤ)) : List ℕ :=
  (List.range total_num).filter (idRangeKeeps id_range)

/-- Concrete one-point, one-channel view whose constant feature field
is 3; the point is visible. -/
def viewA : View 1 1 :=
  { mask := fun _ => 1, pix := fun _ => (0, 0), feat := fun _ _ => 3 }

/-- Concrete one-point, one-channel view whose constant feature field
is 5; the point is visible. -/
def viewB : View 1 1 :=
  { mask := fun _ => 1, pix := fun _ => (0, 0), feat := fun _ _ => 5 }

/-- Concrete view with an entirely false visibility mask. -/
def viewNone : View 1 1 :=
  { mask := fun _ => 0, pix := fun _ => (0, 0), feat := fun _ _ => 7 }

/-- Concrete two-point view: both points visible, the feature gathered
at point 0's pixel is `-3` and at point 1's pixel is `0`. -/
def viewNeg : View 2 1 :=
  { mask := fun _ => 1
    pix := fun p => (p.val, 0)
    feat := fun q _ => if q.1 = 0 then -3 else 0 }

/-- Shared feature field for the noninterference witness views. -/
def fieldQ : ℕ × ℕ → Fin 1 → ℚ := fun q _ => q.1

/-- Noninterference witness: only point 0 visible; pixel coordinates
agree at point 0. -/
def viewP1 : View 2 1 :=
  { mask := fun p => if p.val = 0 then 1 else 0
    pix := fun _ => (0, 0)
    feat := fieldQ }

/-- Same view as `viewP1` except that the pixel coordinate of the
masked-out point 1 differs arbitrarily. -/
def viewP2 : View 2 1 :=
  { mask := fun p => if p.val = 0 then 1 else 0
    pix := fun p => if p.val = 0 then (0, 0) else (9, 9)
    feat := fieldQ }

lemma maskSum_eq_zero_iff {N D : ℕ} (v : View N D) :
    maskSum v = 0 ↔ ∀ p, v.mask p = 0 := by
  unfold maskSum
  rw [Finset.sum_eq_zero_iff]
  simp

lemma recordedCol_eq_mask {N D : ℕ} (v : View N D) : recordedCol v = v.mask := by
  unfold recordedCol
  split
  · next h =>
      funext p
      exact ((maskSum_eq_zero_iff v).mp h p).symm
  · rfl

lemma stepView_counter {N D : ℕ} (st : FusionState N D) (v : View N D) (p : Fin N) :
    (stepView st v).counter p = if v.mask p ≠ 0 then st.counter p + 1 else st.counter p := by
  unfold stepView
  split
  · next h =>
      have hz : v.mask p = 0 := (maskSum_eq_zero_iff v).mp h p
      simp [hz]
  · rfl

lemma stepView_sum {N D : ℕ} (st : FusionState N D) (v : View N D) (p : Fin N) (d : Fin D) :
    (stepView st v).sum_features p d =
      if v.mask p ≠ 0 then st.sum_features p d + v.feat (v.pix p) d
      else st.sum_features p d := by
  unfold stepView
  split
  · next h =>
      have hz : v.mask p = 0 := (maskSum_eq_zero_iff v).mp h p
      simp [hz]
  · rfl

lemma stepView_visCols {N D : ℕ} (st : FusionState N D) (v : View N D) :
    (stepView st v).visCols = st.visCols ++ [recordedCol v] := by
  unfold stepView recordedCol
  split
  · rfl
  · rfl

lemma foldl_stepView_counter {N D : ℕ} (views : List (View N D))
    (st : FusionState N D) (p : Fin N) :
    (views.foldl stepView st).counter p = st.counter p + viewCount views p := by
  induction views generalizing st with
  | nil => simp [viewCount]
  | cons v vs ih =>
      rw [List.foldl_cons, ih, stepView_counter]
      unfold viewCount
      by_cases h : v.mask p ≠ 0
      · rw [if_pos h, List.filter_cons_of_pos (by simpa using h), List.length_cons]
        push_cast
        ring
      · rw [if_neg h, List.filter_cons_of_neg (by simpa using h)]

lemma foldl_stepView_sum {N D : ℕ} (views : List (View N D))
    (st : FusionState N D) (p : Fin N) (d : Fin D) :
    (views.foldl stepView st).sum_features p d = st.sum_features p d + viewSum views p d := by
  induction views generalizing st with
  | nil => simp [viewSum]
  | cons v vs ih =>
      rw [List.foldl_cons, ih, stepView_sum]
      unfold viewSum
      by_cases h : v.mask p ≠ 0
      · rw [if_pos h, List.map_cons, List.sum_cons, if_pos h]
        ring
      · rw [if_neg h, List.map_cons, List.sum_cons, if_neg h]
        ring

lemma foldl_stepView_visCols {N D : ℕ} (views : List (View N D)) (st : FusionState N D) :
    (views.foldl stepView st).visCols = st.visCols ++ views.map recordedCol := by
  induction views generalizing st with
  | nil => simp
  | cons v vs ih =>
      rw [List.foldl_cons, ih, stepView_visCols]
      simp

lemma foldl_stepView_extracted {N D : ℕ} (views : List (View N D)) (st : FusionState N D) :
    (views.foldl stepView st).extracted =
      st.extracted + (views.filter fun v => maskSum v != 0).length := by
  induction views generalizing st with
  | nil => simp
  | cons v vs ih =>
      rw [List.foldl_cons, ih]
      by_cases h : maskSum v = 0
      · unfold stepView
        rw [if_pos h, List.filter_cons_of_neg (by simp [h])]
      · unfold stepView
        rw [if_neg h, List.filter_cons_of_pos (by simpa using h), List.length_cons]
        show st.extracted + 1 + _ = _
        omega

lemma runViews_counter {N D : ℕ} (views : List (View N D)) (p : Fin N) :
    (runViews views).counter p = viewCount views p := by
  unfold runViews
  rw [foldl_stepView_counter]
  simp [initState]

lemma runViews_sum {N D : ℕ} (views : List (View N D)) (p : Fin N) (d : Fin D) :
    (runViews views).sum_features p d = viewSum views p d := by
  unfold runViews
  rw [foldl_stepView_sum]
  simp [initState]

lemma runViews_visCols {N D : ℕ} (views : List (View N D)) :
    (runViews views).visCols = views.map recordedCol := by
  unfold runViews
  rw [foldl_stepView_visCols]
  simp [initState]

lemma map_recordedCol {N D : ℕ} (views : List (View N D)) :
    views.map recordedCol = views.map View.mask := by
  induction views with
  | nil => rfl
  | cons v vs ih => simp [recordedCol_eq_mask, ih]

lemma mem_pointIdsOf {N D : ℕ} (st : FusionState N D) (p : Fin N) :
    p ∈ pointIdsOf st ↔ ∃ col ∈ st.visCols, col p ≠ 0 := by
  unfold pointIdsOf
  rw [Finset.mem_filter]
  simp [List.any_eq_true]

lemma mem_pointIdsOf_runViews {N D : ℕ} (views : List (View N D)) (p : Fin N) :
    p ∈ pointIdsOf (runViews views) ↔ ∃ v ∈ views, v.mask p ≠ 0 := by
  rw [mem_pointIdsOf, runViews_visCols, map_recordedCol]
  constructor
  · rintro ⟨col, hcol, hne⟩
    rw [List.mem_map] at hcol
    obtain ⟨v, hv, rfl⟩ := hcol
    exact ⟨v, hv, hne⟩
  · rintro ⟨v, hv, hne⟩
    exact ⟨v.mask, List.mem_map_of_mem _ hv, hne⟩

lemma foldl_addView_counter {N D : ℕ} (views : List (View N D))
    (st : FusionState N D) (p : Fin N) :
    (views.foldl addView st).counter p = st.counter p + viewCount views p := by
  induction views generalizing st with
  | nil => simp [viewCount]
  | cons v vs ih =>
      rw [List.foldl_cons, ih]
      show (if v.mask p ≠ 0 then st.counter p + 1 else st.counter p) + _ = _
      unfold viewCount
      by_cases h : v.mask p ≠ 0
      · rw [if_pos h, List.filter_cons_of_pos (by simpa using h), List.length_cons]
        push_cast
        ring
      · rw [if_neg h, List.filter_cons_of_neg (by simpa using h)]

lemma foldl_addView_sum {N D : ℕ} (views : List (View N D))
    (st : FusionState N D) (p : Fin N) (d : Fin D) :
    (views.foldl addView st).sum_features p d = st.sum_features p d + viewSum views p d := by
  induction views generalizing st with
  | nil => simp [viewSum]
  | cons v vs ih =>
      rw [List.foldl_cons, ih]
      show (if v.mask p ≠ 0 then st.sum_features p d + v.feat (v.pix p) d
            else st.sum_features p d) + _ = _
      unfold viewSum
      by_cases h : v.mask p ≠ 0
      · rw [if_pos h, List.map_cons, List.sum_cons, if_pos h]
        ring
      · rw [if_neg h, List.map_cons, List.sum_cons, if_neg h]
        ring

lemma foldl_addView_visCols {N D : ℕ} (views : List (View N D)) (st : FusionState N D) :
    (views.foldl addView st).visCols = st.visCols ++ views.map View.mask := by
  induction views generalizing st with
  | nil => simp
  | cons v vs ih =>
      rw [List.foldl_cons, ih]
      show st.visCols ++ [v.mask] ++ _ = _
      simp

lemma runViewsPlain_counter {N D : ℕ} (views : List (View N D)) (p : Fin N) :
    (runViewsPlain views).counter p = viewCount views p := by
  unfold runViewsPlain
  rw [foldl_addView_counter]
  simp [initState]

lemma runViewsPlain_sum {N D : ℕ} (views : List (View N D)) (p : Fin N) (d : Fin D) :
    (runViewsPlain views).sum_features p d = viewSum views p d := by
  unfold runViewsPlain
  rw [foldl_addView_sum]
  simp [initState]

lemma runViewsPlain_visCols {N D : ℕ} (views : List (View N D)) :
    (runViewsPlain views).visCols = views.map View.mask := by
  unfold runViewsPlain
  rw [foldl_addView_visCols]
  simp [initState]

lemma viewCount_eq_zero_iff {N D : ℕ} (views : List (View N D)) (p : Fin N) :
    viewCount views p = 0 ↔ ∀ v ∈ views, v.mask p = 0 := by
  unfold viewCount
  rw [List.length_eq_zero, List.filter_eq_nil_iff]
  constructor
  · intro h v hv
    have := h v hv
    simpa using this
  · intro h v hv
    simp [h v hv]

lemma viewSum_eq_zero_of_count_zero {N D : ℕ} (views : List (View N D)) (p : Fin N)
    (d : Fin D) (h : viewCount views p = 0) : viewSum views p d = 0 := by
  unfold viewSum
  rw [List.sum_eq_zero]
  intro x hx
  rw [List.mem_map] at hx
  obtain ⟨v, hv, rfl⟩ := hx
  have hz := (viewCount_eq_zero_iff views p).mp h v hv
  simp [hz]

lemma epsVal_ne_zero : epsVal ≠ 0 := by norm_num [epsVal]

lemma counterFinal_idem {N : ℕ} (c : Fin N → ℚ) :
    counterFinal (counterFinal c) = counterFinal c := by
  funext p
  unfold counterFinal
  by_cases h : c p = 0
  · rw [if_pos h, if_neg epsVal_ne_zero]
  · rw [if_neg h, if_neg h]

lemma counterFinal_runViews {N D : ℕ} (views : List (View N D)) (p : Fin N) :
    counterFinal (runViews views).counter p =
      if viewCount views p = 0 then epsVal else (viewCount views p : ℚ) := by
  unfold counterFinal
  rw [runViews_counter]
  by_cases h : viewCount views p = 0
  · rw [if_pos (by simpa using h), if_pos h]
  · rw [if_neg (by simpa using h), if_neg h]

lemma featBank_runViews {N D : ℕ} (views : List (View N D)) (p : Fin N) (d : Fin D) :
    featBankOf (runViews views) p d =
      viewSum views p d /
        (if viewCount views p = 0 then epsVal else (viewCount views p : ℚ)) := by
  unfold featBankOf
  rw [runViews_sum, counterFinal_runViews]

lemma viewCount_perm {N D : ℕ} {l1 l2 : List (View N D)} (h : l1.Perm l2) (p : Fin N) :
    viewCount l1 p = viewCount l2 p := by
  unfold viewCount
  rw [← List.countP_eq_length_filter, ← List.countP_eq_length_filter]
  exact h.countP_eq _

lemma viewSum_perm {N D : ℕ} {l1 l2 : List (View N D)} (h : l1.Perm l2) (p : Fin N)
    (d : Fin D) : viewSum l1 p d = viewSum l2 p d :=
  (h.map _).sum_eq

/-- C1 (finalization postcondition): after the view loop, the
pre-substitution counter of point `p` equals the number of views whose
mask is nonzero at `p`; the feature bank row is the accumulated sum
divided by the counter, with `1e-5` substituted when the counter is
zero; a point visible in no view gets its (zero) sum divided by the
epsilon, i.e. the zero vector; and in a two-view scene where `p` is
visible in both views the result is the mean `(v1 + v2) / 2` with
counter 2. -/
theorem C1_finalization_postcondition {N D : ℕ} (views : List (View N D)) (p : Fin N)
    (d : Fin D) :
    (runViews views).counter p = (viewCount views p : ℚ)
    ∧ featBankOf (runViews views) p d =
        viewSum views p d /
          (if viewCount views p = 0 then epsVal else (viewCount views p : ℚ))
    ∧ (viewCount views p = 0 →
        featBankOf (runViews views) p d = viewSum views p d / epsVal
        ∧ featBankOf (runViews views) p d = 0)
    ∧ (∀ w1 w2, views = [w1, w2] → w1.mask p ≠ 0 → w2.mask p ≠ 0 →
        (runViews views).counter p = 2
        ∧ featBankOf (runViews views) p d =
            (w1.feat (w1.pix p) d + w2.feat (w2.pix p) d) / 2) := by
  refine ⟨runViews_counter views p, featBank_runViews views p d, ?_, ?_⟩
  · intro h
    have hs : viewSum views p d = 0 := viewSum_eq_zero_of_count_zero views p d h
    refine ⟨?_, ?_⟩
    · rw [featBank_runViews, if_pos h]
    · rw [featBank_runViews, if_pos h, hs, zero_div]
  · rintro w1 w2 rfl h1 h2
    have hcount : viewCount [w1, w2] p = 2 := by
      unfold viewCount
      rw [List.filter_cons_of_pos (by simpa using h1),
        List.filter_cons_of_pos (by simpa using h2)]
      rfl
    refine ⟨?_, ?_⟩
    · rw [runViews_counter, hcount]
      norm_num
    · rw [featBank_runViews, hcount]
      rw [if_neg (by norm_num)]
      unfold viewSum
      rw [List.map_cons, List.map_cons, List.map_nil, List.sum_cons, List.sum_cons,
        List.sum_nil, if_pos h1, if_pos h2]
      push_cast
      ring

/-- Witness for C1: both concrete views see the single point with
features 3 and 5; the final counter is 2 and the feature bank entry is
`(3 + 5) / 2 = 4`. -/
theorem C1_witness :
    (runViews [viewA, viewB]).counter 0 = 2
    ∧ featBankOf (runViews [viewA, viewB]) 0 0 = 4 := by
  have h := (C1_finalization_postcondition [viewA, viewB] 0 0).2.2.2 viewA viewB rfl
    (by decide) (by decide)
  refine ⟨h.1, ?_⟩
  rw [h.2]
  norm_num [viewA, viewB]

/-- C2 (order independence): permuting the order in which a scene's
views are processed leaves the final feature bank and the final
visible-point-id set unchanged. -/
theorem C2_order_independence {N D : ℕ} (l1 l2 : List (View N D)) (h : l1.Perm l2) :
    featBankOf (runViews l1) = featBankOf (runViews l2)
    ∧ pointIdsOf (runViews l1) = pointIdsOf (runViews l2) := by
  constructor
  · funext p d
    rw [featBank_runViews, featBank_runViews, viewCount_perm h, viewSum_perm h]
  · ext p
    rw [mem_pointIdsOf_runViews, mem_pointIdsOf_runViews]
    constructor
    · rintro ⟨v, hv, hm⟩
      exact ⟨v, h.mem_iff.mp hv, hm⟩
    · rintro ⟨v, hv, hm⟩
      exact ⟨v, h.mem_iff.mpr hv, hm⟩

/-- Witness for C2: swapping the two concrete views leaves the feature
bank and point-id set unchanged. -/
theorem C2_witness :
    featBankOf (runViews [viewA, viewB]) = featBankOf (runViews [viewB, viewA])
    ∧ pointIdsOf (runViews [viewA, viewB]) = pointIdsOf (runViews [viewB, viewA]) :=
  C2_order_independence [viewA, viewB] [viewB, viewA] (List.Perm.swap viewB viewA [])

/-- C3 (visible-point-id set correctness): a point is in `point_ids`
iff its mask was nonzero in at least one view of the scene, and iff its
pre-substitution counter is at least 1. -/
theorem C3_point_ids {N D : ℕ} (views : List (View N D)) (p : Fin N) :
    (p ∈ pointIdsOf (runViews views) ↔ ∃ v ∈ views, v.mask p ≠ 0)
    ∧ (p ∈ pointIdsOf (runViews views) ↔ 1 ≤ (runViews views).counter p) := by
  refine ⟨mem_pointIdsOf_runViews views p, ?_⟩
  rw [mem_pointIdsOf_runViews, runViews_counter, Nat.one_le_cast,
    Nat.one_le_iff_ne_zero, ne_eq, viewCount_eq_zero_iff]
  push_neg
  rfl

/-- Witness for C3: the single point of the concrete one-view scene is
in the visible-point-id set. -/
theorem C3_witness : (0 : Fin 1) ∈ pointIdsOf (runViews [viewA]) := by
  rw [(C3_point_ids [viewA] 0).1]
  exact ⟨viewA, List.mem_singleton.mpr rfl, by decide⟩

/-- Counterexample to C4 as stated: finalization does modify the
accumulator's counter array.  On the initial one-point accumulator
(counter identically zero) the epsilon substitution
`counter[counter == 0] = 1e-5` rewrites the counter in place, so the
post-finalization state differs from the input state. -/
theorem C4_counterexample : finalizeState (initState 1 1) ≠ initState 1 1 := by
  intro h
  have h0 := congrArg (fun st : FusionState 1 1 => st.counter 0) h
  norm_num [finalizeState, counterFinal, initState, epsVal] at h0

/-- C4 amended: finalization leaves `sum_features` and the visibility
ledger unchanged and only substitutes the epsilon into zero counter
entries; that substitution is idempotent, so running finalization a
second time on the updated accumulator contents yields the same
post-state, the same feature bank and the same visible-point-id set as
running it once. -/
theorem C4_finalize_idempotent {N D : ℕ} (st : FusionState N D) :
    (finalizeState st).sum_features = st.sum_features
    ∧ (finalizeState st).visCols = st.visCols
    ∧ finalizeState (finalizeState st) = finalizeState st
    ∧ featBankOf (finalizeState st) = featBankOf st
    ∧ pointIdsOf (finalizeState st) = pointIdsOf st := by
  obtain ⟨c, s, vc, e⟩ := st
  refine ⟨rfl, rfl, ?_, ?_, rfl⟩
  · simp [finalizeState, counterFinal_idem]
  · funext p d
    simp [featBankOf, finalizeState, counterFinal_idem]

/-- C5 (zero-view degenerate case): a scene with an empty view list
ends with counter identically 0 before the substitution and identically
`1e-5` after it, an all-zero feature bank, and an empty
visible-point-id set. -/
theorem C5_zero_views {N D : ℕ} (p : Fin N) (d : Fin D) :
    (runViews ([] : List (View N D))).counter p = 0
    ∧ (finalizeState (runViews ([] : List (View N D)))).counter p = epsVal
    ∧ featBankOf (runViews ([] : List (View N D))) p d = 0
    ∧ pointIdsOf (runViews ([] : List (View N D))) = ∅ := by
  refine ⟨rfl, ?_, ?_, ?_⟩
  · simp [finalizeState, counterFinal, runViews, initState]
  · simp [featBankOf, runViews, initState]
  · simp [pointIdsOf, runViews, initState]

/-- C6 (empty-view skip equivalence): the loop's extraction count
equals the number of views with a nonzero mask sum, so views with an
entirely false mask never trigger feature extraction; an all-false-mask
view is skipped leaving only its zero `vis_id` column; and the loop
with the skip produces the same feature bank, point-id set, counter and
sums as the un-optimized loop that accumulates every view. -/
theorem C6_skip_equivalence {N D : ℕ} (views : List (View N D)) :
    (runViews views).extracted = (views.filter fun v => maskSum v != 0).length
    ∧ (∀ (st : FusionState N D) (v : View N D), (∀ q, v.mask q = 0) →
        stepView st v = { st with visCols := st.visCols ++ [fun _ => 0] })
    ∧ featBankOf (runViews views) = featBankOf (runViewsPlain views)
    ∧ pointIdsOf (runViews views) = pointIdsOf (runViewsPlain views)
    ∧ (runViews views).counter = (runViewsPlain views).counter
    ∧ (runViews views).sum_features = (runViewsPlain views).sum_features := by
  refine ⟨?_, ?_, ?_, ?_, ?_, ?_⟩
  · unfold runViews
    rw [foldl_stepView_extracted]
    simp [initState]
  · intro st v hv
    unfold stepView
    rw [if_pos ((maskSum_eq_zero_iff v).mpr hv)]
  · funext p d
    unfold featBankOf counterFinal
    rw [runViews_sum, runViews_counter, runViewsPlain_sum, runViewsPlain_counter]
  · unfold pointIdsOf
    rw [runViews_visCols, runViewsPlain_visCols, map_recordedCol]
  · funext p
    rw [runViews_counter, runViewsPlain_counter]
  · funext p d
    rw [runViews_sum, runViewsPlain_sum]

/-- Witness for C6: the all-false-mask concrete view is skipped —
its processing leaves the state unchanged except for the zero `vis_id`
column, and a scene consisting of it alone performs zero feature
extractions. -/
theorem C6_witness :
    stepView (initState 1 1) viewNone = { initState 1 1 with visCols := [fun _ => 0] }
    ∧ (runViews [viewNone]).extracted = 0 := by
  have h := C6_skip_equivalence ([viewNone] : List (View 1 1))
  refine ⟨?_, ?_⟩
  · have h2 := h.2.1 (initState 1 1) viewNone fun q => rfl
    simpa [initState] using h2
  · rw [h.1]
    simp [maskSum, viewNone]

/-- Counterexample to C7 as stated: in the concrete one-view two-point
scene `viewNeg`, point 0's accumulated sum entry is `-3` (sums need not
be non-negative, since gathered features can be negative), and point 1
has counter 1 with an all-zero sum row (so `counter[p] == 0` is not
equivalent to the sum row being zero). -/
theorem C7_counterexample :
    ¬ (∀ p : Fin 2, 0 ≤ (runViews [viewNeg]).counter p
        ∧ (∀ d, 0 ≤ (runViews [viewNeg]).sum_features p d)
        ∧ ((runViews [viewNeg]).counter p = 0 ↔
            ∀ d, (runViews [viewNeg]).sum_features p d = 0))
    ∧ (runViews [viewNeg]).sum_features 0 0 = -3
    ∧ (runViews [viewNeg]).counter 1 = 1
    ∧ (runViews [viewNeg]).sum_features 1 0 = 0 := by
  have hneg : (runViews [viewNeg]).sum_features 0 0 = -3 := by
    rw [runViews_sum]
    simp [viewSum, viewNeg]
  have hc1 : (runViews [viewNeg]).counter 1 = 1 := by
    rw [runViews_counter]
    simp [viewCount, viewNeg]
  have hs1 : (runViews [viewNeg]).sum_features 1 0 = 0 := by
    rw [runViews_sum]
    simp [viewSum, viewNeg]
  refine ⟨?_, hneg, hc1, hs1⟩
  intro h
  have h0 := (h 0).2.1 0
  rw [hneg] at h0
  norm_num at h0

/-- C7 amended: at every state reached by the view loop, counter
entries are non-negative (counter and sums share the first dimension
`N` by construction), and a point with counter zero has an all-zero
sum row; the converse fails for zero-valued gathered features, and sum
entries can be negative. -/
theorem C7_accumulator_invariant {N D : ℕ} (views : List (View N D)) (p : Fin N) :
    0 ≤ (runViews views).counter p
    ∧ ((runViews views).counter p = 0 → ∀ d, (runViews views).sum_features p d = 0) := by
  constructor
  · rw [runViews_counter]
    exact Nat.cast_nonneg _
  · intro h d
    rw [runViews_counter] at h
    have h0 : viewCount views p = 0 := by exact_mod_cast h
    rw [runViews_sum]
    exact viewSum_eq_zero_of_count_zero views p d h0

/-- Witness for C7's amended invariant at the empty scene: the counter
is non-negative and, being zero, forces a zero sum row. -/
theorem C7_witness :
    0 ≤ (runViews ([] : List (View 1 1))).counter 0
    ∧ ∀ d, (runViews ([] : List (View 1 1))).sum_features 0 d = 0 :=
  ⟨(C7_accumulator_invariant [] 0).1, (C7_accumulator_invariant [] 0).2 rfl⟩

/-- C8 (already-exported scene skip): `process_one_scene` takes its
early return exactly when every one of the `num_rand_file_per_scene`
expected shard files already exists; if any is missing the gate is not
taken and the scene is processed. -/
theorem C8_scene_skip (num_rand_file_per_scene : ℕ) (file_exists : ℕ → Bool) :
    sceneAlreadyDone num_rand_file_per_scene file_exists = true ↔
      ∀ n < num_rand_file_per_scene, file_exists n = true := by
  unfold sceneAlreadyDone n_finished
  rw [beq_iff_eq]
  constructor
  · intro h n hn
    have hc : (List.range num_rand_file_per_scene).countP (fun n => file_exists n)
        = (List.range num_rand_file_per_scene).length := by
      rw [List.countP_eq_length_filter, h, List.length_range]
    exact List.countP_eq_length.mp hc n (List.mem_range.mpr hn)
  · intro h
    rw [List.filter_eq_self.mpr fun a ha => h a (List.mem_range.mp ha), List.length_range]

/-- Witness for C8: with two expected shards both present, the gate is
taken. -/
theorem C8_witness : sceneAlreadyDone 2 (fun _ => true) = true := by
  rw [C8_scene_skip]
  intro n hn
  rfl

/-- C9 (masked-out pixel coordinates are unused): two views with the
same mask and feature field whose pixel coordinates agree wherever the
mask is nonzero produce identical loop updates — the same counter, the
same sums, the same `vis_id` column and the same extraction count. -/
theorem C9_noninterference {N D : ℕ} (st : FusionState N D) (v1 v2 : View N D)
    (hm : v1.mask = v2.mask) (hf : v1.feat = v2.feat)
    (hp : ∀ q, v1.mask q ≠ 0 → v1.pix q = v2.pix q) :
    stepView st v1 = stepView st v2 := by
  have hms : maskSum v1 = maskSum v2 := by
    unfold maskSum
    rw [hm]
  by_cases h : maskSum v2 = 0
  · unfold stepView
    rw [if_pos (hms.trans h), if_pos h]
  · unfold stepView
    rw [if_neg (by rw [hms]; exact h), if_neg h]
    unfold addView
    simp only [FusionState.mk.injEq]
    refine ⟨?_, ?_, ?_, trivial⟩
    · funext p
      rw [hm]
    · funext p d
      by_cases hmp : v2.mask p ≠ 0
      · rw [if_pos (by rw [hm]; exact hmp), if_pos hmp, hf,
          hp p (by rw [hm]; exact hmp)]
      · rw [if_neg (by rw [hm]; exact hmp), if_neg hmp]
    · rw [hm]

/-- Witness for C9: the two concrete noninterference views (pixel
coordinates differing only at the masked-out point 1) produce the same
update of the initial state. -/
theorem C9_witness : stepView (initState 2 1) viewP1 = stepView (initState 2 1) viewP2 :=
  C9_noninterference (initState 2 1) viewP1 viewP2 rfl rfl (by decide)

/-- C10 (hard-coded data path): `main`'s data-path list is the
singleton containing `<data_dir>/scannet_3d/<split>/scene0479_00_vh_clean_2.pth`,
so regardless of the configured id range at most one scene index (0) is
ever processed. -/
theorem C10_hardcoded_path (data_dir split : String) (id_range : Option (ℤ × ℤ)) :
    (data_paths data_dir split).length = 1
    ∧ (∀ pth ∈ data_paths data_dir split,
        pth = data_dir ++ "/scannet_3d/" ++ split ++ "/scene0479_00_vh_clean_2.pth")
    ∧ (processedIndices (data_paths data_dir split).length id_range).length ≤ 1
    ∧ ∀ i ∈ processedIndices (data_paths data_dir split).length id_range, i = 0 := by
  refine ⟨rfl, ?_, ?_, ?_⟩
  · intro pth hp
    simpa [data_paths] using hp
  · calc (processedIndices (data_paths data_dir split).length id_range).length
        ≤ (List.range 1).length := List.length_filter_le _ _
      _ = 1 := rfl
  · intro i hi
    have h := List.mem_filter.mp hi
    have h1 := List.mem_range.mp h.1
    simp [data_paths] at h1
    omega

/-- Witness for C10: with concrete directory, split and no id range,
the single path is the hard-coded one and index 0 is a processed
index. -/
theorem C10_witness :
    ("d" ++ "/scannet_3d/" ++ "train" ++ "/scene0479_00_vh_clean_2.pth")
        = "d" ++ "/scannet_3d/" ++ "train" ++ "/scene0479_00_vh_clean_2.pth"
    ∧ (0 : ℕ) = 0 := by
  have h := C10_hardcoded_path "d" "train" none
  exact ⟨h.2.1 _ (List.mem_singleton.mpr rfl), h.2.2.2 0 (by decide)⟩
